import Mathlib

/-!
Verification development for a chat-room speed-quiz engine (`src/main.py`):
room lifecycle, question dispatch, answer arbitration, and a persistent
monthly scoring ledger.  Python dictionaries are embedded as association
lists (preserving insertion order), Python sets as duplicate-free insert
lists, strings as Lean `String`/`List Char`, and the fallible persistence
write as an explicit `Except` outcome parameter.
-/

namespace QuizBot

/-! ## Association lists (embedding of Python `dict`) -/

def alookup {α : Type} : List (Nat × α) → Nat → Option α
  | [], _ => none
  | (k, v) :: rest, key => if key = k then some v else alookup rest key

def aset {α : Type} : List (Nat × α) → Nat → α → List (Nat × α)
  | [], key, v => [(key, v)]
  | (k, w) :: rest, key, v =>
    if key = k then (k, v) :: rest else (k, w) :: aset rest key v

def agetD {α : Type} (l : List (Nat × α)) (key : Nat) (d : α) : α :=
  (alookup l key).getD d

/-- Python `set.add`: insert an element if not already present. -/
def sinsert (x : Nat) (s : List Nat) : List Nat :=
  if x ∈ s then s else x :: s

/-! ## Character-level string operations (Python `str` methods) -/

def chLe (c d : Char) : Bool := decide (c ≤ d)

/-- Lexicographic comparison of strings by code point (Python `str` ordering). -/
def lexLe : List Char → List Char → Bool
  | [], _ => true
  | _ :: _, [] => false
  | c :: cs, d :: ds => if c = d then lexLe cs ds else chLe c d

def strLe (s t : String) : Bool := lexLe s.data t.data

/-- Python `str.strip()`. -/
def trimL (s : List Char) : List Char :=
  ((s.dropWhile Char.isWhitespace).reverse.dropWhile Char.isWhitespace).reverse

/-- Python `str.split(sep)` for a single-character separator. -/
def splitOnChar (ch : Char) : List Char → List (List Char)
  | [] => [[]]
  | c :: rest =>
    if c = ch then [] :: splitOnChar ch rest
    else
      match splitOnChar ch rest with
      | [] => [[c]]
      | b :: bs => (c :: b) :: bs

/-- Python `str.split("---")`: greedy left-to-right scan for the separator. -/
def splitDashes : List Char → List (List Char)
  | '-' :: '-' :: '-' :: rest => [] :: splitDashes rest
  | c :: rest =>
    match splitDashes rest with
    | [] => [[c]]
    | b :: bs => (c :: b) :: bs
  | [] => [[]]

def upperL (s : List Char) : List Char := s.map Char.toUpper

/-- Python `str.replace(single_char, "")`: remove all occurrences. -/
def removeChar (ch : Char) (s : List Char) : List Char := s.filter (· ≠ ch)

def intercalChar (ch : Char) : List (List Char) → List Char
  | [] => []
  | [x] => x
  | x :: rest => x ++ ch :: intercalChar ch rest

def joinLines : List String → String
  | [] => ""
  | [x] => x
  | x :: rest => x ++ "\n" ++ joinLines rest

/-! ## Data model -/

/-- `questions` entries: `{q, options[4], answer(int 0..3)}` (`src/main.py` line 120). -/
structure Question where
  q : String
  options : List String
  answer : Nat
deriving DecidableEq

/-- One entry of `scores["groups"]`: `{"users": {...}, "names": {...}}`. -/
structure GroupScore where
  users : List (Nat × Int)
  names : List (Nat × String)
deriving DecidableEq

/-- The persistent ledger `scores`: `{"period": "YYYY-MM", "groups": {...}}`. -/
structure Scores where
  period : String
  groups : List (Nat × GroupScore)
deriving DecidableEq

/-- One room of `rooms` (`src/main.py` lines 111-118). -/
structure Room where
  host : Nat
  players : List Nat
  current_q : Nat
  answered : List Nat
  solved : Bool
  active_msg_id : Option Nat
deriving DecidableEq

/-- The whole in-memory mutable state: `rooms` and `scores`. -/
structure Global where
  rooms : List (Nat × Room)
  scores : Scores
deriving DecidableEq

/-- Observable effects of an operation: outbound chat messages, callback-query
notices, keyboard revocation, and persistence write attempts. -/
inductive Out where
  | msg (chatId : Nat) (text : String)
  | kbMsg (chatId : Nat) (text : String)
  | priv (text : String)
  | lockKb (chatId : Nat)
  | save
deriving DecidableEq

/-! ## Scoring ledger (`save_scores`, `current_period_str`, `ensure_group`,
`add_score`, `top10_text`, `reset_month_if_needed`) -/

/-- `f"{n:0{width}d}"`: zero-pad a natural number to a minimum width. -/
def padZero (width : Nat) (n : Nat) : String :=
  let s := toString n
  if s.length < width then String.mk (List.replicate (width - s.length) '0') ++ s else s

/-- `current_period_str` (`src/main.py` lines 60-63): the current UTC calendar
month rendered as `"YYYY-MM"`; the UTC year and month are parameters. -/
def current_period_str (y m : Nat) : String :=
  padZero 4 y ++ "-" ++ padZero 2 m

/-- `save_scores` (`src/main.py` lines 53-58): attempt the persistence write,
catch any I/O error and log it.  The file-system outcome is a parameter; the
function is total (the `try`/`except` swallows the error), returning the log
records it emits. -/
def save_scores (fsWrite : Except String Unit) : List String :=
  match fsWrite with
  | .ok _ => []
  | .error e => ["❌ Gagal simpan scores.json: " ++ e]

/-- `ensure_group` (`src/main.py` lines 67-70). -/
def ensure_group (s : Scores) (chat : Nat) : Scores :=
  if (alookup s.groups chat).isSome then s
  else { s with groups := aset s.groups chat ⟨[], []⟩ }

/-- Result of one `add_score` call: the in-memory state afterwards, the log
records emitted, and the number of persistence writes attempted. -/
structure AddScoreRun where
  state : Scores
  logs : List String
  writeAttempts : Nat
deriving DecidableEq

/-- `add_score` (`src/main.py` lines 72-83) with the persistence outcome made
explicit: update the display name, add `delta` to the user's points (creating
entries as needed), then attempt exactly one write via `save_scores`. -/
def add_score_run (s : Scores) (chat uid : Nat) (display : String) (delta : Int)
    (fsWrite : Except String Unit) : AddScoreRun :=
  let s1 := ensure_group s chat
  let grp := agetD s1.groups chat ⟨[], []⟩
  let grp1 := { grp with names := aset grp.names uid display }
  let grp2 := { grp1 with users := aset grp1.users uid (agetD grp1.users uid 0 + delta) }
  ⟨{ s1 with groups := aset s1.groups chat grp2 }, save_scores fsWrite, 1⟩

/-- The in-memory effect of `add_score` (identical for every write outcome). -/
def add_score (s : Scores) (chat uid : Nat) (display : String) (delta : Int) : Scores :=
  (add_score_run s chat uid display delta (Except.ok ())).state

/-- A user's point total as observed by the code (`users.get(uid, 0)`,
with a missing room group reading as no entries). -/
def pointsOf (s : Scores) (chat uid : Nat) : Int :=
  match alookup s.groups chat with
  | none => 0
  | some grp => agetD grp.users uid 0

/-- A user's recorded display name, if any. -/
def nameOf (s : Scores) (chat uid : Nat) : Option String :=
  match alookup s.groups chat with
  | none => none
  | some grp => alookup grp.names uid

/-- Stable insertion into a sorted list: walk past elements strictly earlier
in the order, so equal-keyed elements keep their original relative order. -/
def insertS {α : Type} (le : α → α → Bool) (x : α) : List α → List α
  | [] => [x]
  | y :: ys => if le y x && !(le x y) then y :: insertS le x ys else x :: y :: ys

/-- Stable sort (the embedding of Python's stable `sorted`). -/
def sortS {α : Type} (le : α → α → Bool) : List α → List α
  | [] => []
  | x :: xs => insertS le x (sortS le xs)

/-- The sort key of `top10_text`: `lambda kv: (-kv[1], names.get(kv[0], ""))`,
i.e. points descending, then the *stored* name (defaulting to `""`) ascending. -/
def rankLe (names : List (Nat × String)) (a b : Nat × Int) : Bool :=
  decide (b.2 < a.2) || (decide (a.2 = b.2) && strLe (agetD names a.1 "") (agetD names b.1 ""))

/-- The displayed name: `names.get(uid, f"Player {uid}")`. -/
def renderName (names : List (Nat × String)) (uid : Nat) : String :=
  (alookup names uid).getD ("Player " ++ toString uid)

/-- The ranking computed by `top10_text`: `sorted(users.items(), key=...)[:10]`. -/
def top10_ranking (s : Scores) (chat : Nat) : List (Nat × Int) :=
  match alookup s.groups chat with
  | none => []
  | some grp => (sortS (rankLe grp.names) grp.users).take 10

def rankLines (names : List (Nat × String)) (start : Nat) : List (Nat × Int) → List String
  | [] => []
  | (uid, pts) :: rest =>
    (toString start ++ ". " ++ renderName names uid ++ " — " ++ toString pts ++ " poin")
      :: rankLines names (start + 1) rest

/-- `top10_text` (`src/main.py` lines 85-99). -/
def top10_text (s : Scores) (chat : Nat) : String :=
  match alookup s.groups chat with
  | none => "📊 Belum ada skor untuk bulan ini."
  | some grp =>
    if grp.users.isEmpty then "📊 Belum ada skor untuk bulan ini."
    else
      joinLines ("🏆 *TOP 10 BULAN INI*"
        :: rankLines grp.names 1 (top10_ranking s chat))

/-- `reset_month_if_needed` (`src/main.py` lines 101-108): the current UTC
year/month are parameters; returns the new ledger and the effects emitted. -/
def reset_month_if_needed (y m : Nat) (s : Scores) : Scores × List Out :=
  if s.period ≠ current_period_str y m then
    ({ period := current_period_str y m, groups := [] }, [Out.save])
  else (s, [])

/-! ## Question-bank loader (`load_questions_txt`, `src/main.py` lines 124-170) -/

/-- `[x.strip() for x in block.split("\n") if x.strip()]`. -/
def cleanLines (block : List Char) : List (List Char) :=
  ((splitOnChar '\n' block).map trimL).filter (fun x => !x.isEmpty)

/-- `line.upper().startswith("BENAR=")`. -/
def startsWithBenar (line : List Char) : Bool :=
  List.isPrefixOf "BENAR=".data (upperL line)

/-- `line.split("=", 1)[1]`: everything after the first `=`. -/
def afterEq (line : List Char) : List Char :=
  match splitOnChar '=' line with
  | [] => []
  | [_] => []
  | _ :: rest => intercalChar '=' rest

/-- The loop over `lines[5:]` that extracts `benar_raw` (first matching line). -/
def findBenarRaw : List (List Char) → List Char
  | [] => []
  | line :: rest =>
    if startsWithBenar line then trimL (afterEq line)
    else findBenarRaw rest

/-- `benar_raw.replace("—","").replace("–","").replace("-","").replace(" ","").upper()`. -/
def cleanBenar (raw : List Char) : List Char :=
  upperL (removeChar ' ' (removeChar '-' (removeChar '–' (removeChar '—' raw))))

/-- `idx_map = {"A": 0, "B": 1, "C": 2, "D": 3}` as a partial lookup. -/
def idx_map (s : List Char) : Option Nat :=
  if s = ['A'] then some 0
  else if s = ['B'] then some 1
  else if s = ['C'] then some 2
  else if s = ['D'] then some 3
  else none

def warnShort (n : Nat) : String :=
  "⚠️ Blok soal ke-" ++ toString n ++ " kurang baris, dilewati."

def warnBenar (n : Nat) (raw : String) : String :=
  "❌ Format BENAR= salah di soal ke-" ++ toString n ++ ": " ++ raw

/-- The `for block in blocks` loop: accumulates parsed questions and the
warnings for skipped malformed blocks; `nomor` counts nonempty blocks. -/
def loadLoop : List (List Char) → Nat → List Question × List String
  | [], _ => ([], [])
  | block :: rest, nomor =>
    let lines := cleanLines block
    if lines.isEmpty then loadLoop rest nomor
    else
      if lines.length < 6 then
        let r := loadLoop rest (nomor + 1)
        (r.1, warnShort (nomor + 1) :: r.2)
      else
        let benar_raw := findBenarRaw (lines.drop 5)
        match idx_map (cleanBenar benar_raw) with
        | none =>
          let r := loadLoop rest (nomor + 1)
          (r.1, warnBenar (nomor + 1) (String.mk benar_raw) :: r.2)
        | some i =>
          let r := loadLoop rest (nomor + 1)
          (⟨String.mk (lines.headD []), ((lines.drop 1).take 4).map String.mk, i⟩ :: r.1, r.2)

/-- `load_questions_txt` on the file's content string: `f.read().strip().split("---")`
then the block loop.  Returns the loaded question list. -/
def load_questions_txt (content : String) : List Question :=
  (loadLoop (splitDashes (trimL content.data)) 0).1

/-- The warnings logged while loading `content`. -/
def load_questions_warnings (content : String) : List String :=
  (loadLoop (splitDashes (trimL content.data)) 0).2

/-- Parsing a single block, in isolation: `none` exactly when the block is
skipped (empty, too few lines, or unrecognized `BENAR=` tag). -/
def parseBlock (block : List Char) : Option Question :=
  let lines := cleanLines block
  if lines.length < 6 then none
  else
    match idx_map (cleanBenar (findBenarRaw (lines.drop 5))) with
    | none => none
    | some i =>
      some ⟨String.mk (lines.headD []), ((lines.drop 1).take 4).map String.mk, i⟩

/-! ## Engine commands and the answer handler -/

/-- `display_name` (`src/main.py` lines 237-238). -/
def display_name (username : Option String) (firstName : String) : String :=
  match username with
  | some u => "@" ++ u
  | none => firstName

/-- `update.effective_chat.type`. -/
inductive ChatKind where
  | privateChat
  | group
  | supergroup
  | channel
deriving DecidableEq

/-- `send_question` (`src/main.py` lines 186-220): the transport-assigned id of
the sent message is the parameter `msgId`. -/
def send_question (bank : List Question) (msgId : Nat) (g : Global) (chat : Nat) :
    Global × List Out :=
  match alookup g.rooms chat with
  | none => (g, [])
  | some room =>
    if bank.length ≤ room.current_q then
      (g, [Out.msg chat "🎉 *Kuis selesai!* Terima kasih sudah bermain."])
    else
      let q := bank.getD room.current_q ⟨"", [], 0⟩
      let text := "❓ *Soal " ++ toString (room.current_q + 1) ++ "*\n" ++ q.q ++ "\n\n"
        ++ "A. " ++ q.options.getD 0 "" ++ "\n" ++ "B. " ++ q.options.getD 1 "" ++ "\n"
        ++ "C. " ++ q.options.getD 2 "" ++ "\n" ++ "D. " ++ q.options.getD 3 ""
      let room' := { room with answered := [], solved := false, active_msg_id := some msgId }
      ({ g with rooms := aset g.rooms chat room' }, [Out.kbMsg chat text])

/-- `host` (`src/main.py` lines 241-259). -/
def host (g : Global) (chat uid : Nat) (kind : ChatKind) : Global × List Out :=
  if kind = ChatKind.group ∨ kind = ChatKind.supergroup then
    ({ g with rooms := aset g.rooms chat ⟨uid, [], 0, [], false, none⟩ },
      [Out.msg chat "✅ Room dibuat!\nPemain ketik */gabung* untuk ikut.\nHost jalankan */startgame* untuk mulai."])
  else (g, [Out.msg chat "❌ Game hanya untuk *grup*."])

/-- `gabung` (`src/main.py` lines 261-271). -/
def gabung (g : Global) (chat uid : Nat) (username : Option String) (firstName : String) :
    Global × List Out :=
  match alookup g.rooms chat with
  | none => (g, [Out.msg chat "❌ Belum ada room. Host jalankan /host."])
  | some room =>
    let room' := { room with players := sinsert uid room.players }
    let s1 := ensure_group g.scores chat
    let s2 := add_score s1 chat uid (display_name username firstName) 0
    (⟨aset g.rooms chat room', s2⟩,
      [Out.save, Out.msg chat ("✅ " ++ firstName ++ " bergabung!")])

/-- `startgame` (`src/main.py` lines 273-284). -/
def startgame (bank : List Question) (msgId : Nat) (g : Global) (chat uid : Nat) :
    Global × List Out :=
  match alookup g.rooms chat with
  | none => (g, [Out.msg chat "❌ Belum ada room. Jalankan /host."])
  | some room =>
    if room.host ≠ uid then (g, [Out.msg chat "❌ Hanya host yang bisa memulai."])
    else
      let g1 : Global := ⟨aset g.rooms chat { room with current_q := 0 }, g.scores⟩
      let r := send_question bank msgId g1 chat
      (r.1, Out.msg chat "🎮 Kuis dimulai! Siap-siap adu cepat!" :: r.2)

/-- `juara` (`src/main.py` lines 286-290). -/
def juara (g : Global) (chat : Nat) : Global × List Out :=
  let s1 := ensure_group g.scores chat
  (⟨g.rooms, s1⟩, [Out.msg chat (top10_text s1 chat)])

/-- One inbound answer-submission callback: `(submitter, optionIndex)` plus the
submitter's transport-supplied naming fields. -/
structure AnsEvent where
  user : Nat
  selected : Nat
  username : Option String
  firstName : String
deriving DecidableEq

/-- Result of processing one answer submission: the new state, the recorded
winner of this step (if any), whether the unguarded `questions[...]` lookup
raised `IndexError`, and the emitted effects. -/
structure AnsStep where
  g : Global
  winner : Option Nat
  crashed : Bool
  outs : List Out
deriving DecidableEq

/-- `answer` (`src/main.py` lines 293-369), after the callback-payload parse and
chat-match guard: the ordered early-exit checks, the one-attempt record, the
unguarded question lookup, and the correct/incorrect branches. -/
def answer (bank : List Question) (msgId : Nat) (chat : Nat) (g : Global) (e : AnsEvent) :
    AnsStep :=
  match alookup g.rooms chat with
  | none => ⟨g, none, false, []⟩
  | some room =>
    if e.user ∉ room.players then ⟨g, none, false, [Out.priv "❗ Kamu belum /gabung."]⟩
    else if room.solved then ⟨g, none, false, []⟩
    else if e.user ∈ room.answered then ⟨g, none, false, []⟩
    else
      let room1 := { room with answered := sinsert e.user room.answered }
      let g1 : Global := ⟨aset g.rooms chat room1, g.scores⟩
      match bank.get? room.current_q with
      | none => ⟨g1, none, true, []⟩
      | some q =>
        if e.selected = q.answer then
          let name := display_name e.username e.firstName
          let s1 := ensure_group g1.scores chat
          let s2 := add_score s1 chat e.user name 1
          let g2 : Global := ⟨g1.rooms, s2⟩
          let label := List.getD ["A", "B", "C", "D"] e.selected ""
          let room2 := { room1 with solved := true }
          let g3 : Global := ⟨aset g2.rooms chat room2, g2.scores⟩
          let room3 := { room2 with current_q := room2.current_q + 1 }
          let g4 : Global := ⟨aset g3.rooms chat room3, g3.scores⟩
          let r := send_question bank msgId g4 chat
          ⟨r.1, some e.user, false,
            Out.save :: Out.msg chat ("🎉 *Pemenang tercepat:* " ++ name ++ " — *Jawaban:* " ++ label)
              :: Out.lockKb chat :: r.2⟩
        else ⟨g1, none, false, [Out.priv "❌ Salah! Tunggu soal berikutnya."]⟩

/-! ## The event-level state machine -/

/-- An inbound event: a user command, an answer callback, or the scheduled
monthly-reset job. -/
inductive Op where
  | opHost (chat uid : Nat) (kind : ChatKind)
  | opGabung (chat uid : Nat) (username : Option String) (firstName : String)
  | opStart (chat uid msgId : Nat)
  | opJuara (chat : Nat)
  | opAns (chat : Nat) (e : AnsEvent) (msgId : Nat)
  | opReset (y m : Nat)
deriving DecidableEq

def applyOp (bank : List Question) (g : Global) : Op → Global
  | .opHost chat uid kind => (host g chat uid kind).1
  | .opGabung chat uid un fn => (gabung g chat uid un fn).1
  | .opStart chat uid msgId => (startgame bank msgId g chat uid).1
  | .opJuara chat => (juara g chat).1
  | .opAns chat e msgId => (answer bank msgId chat g e).g
  | .opReset y m => ⟨g.rooms, (reset_month_if_needed y m g.scores).1⟩

/-- Process start-up: no rooms, a freshly initialized (or loaded) ledger. -/
def initGlobal (period : String) : Global := ⟨[], ⟨period, []⟩⟩

/-- Every state reachable by a serial event sequence from start-up. -/
def runOps (bank : List Question) (period : String) (ops : List Op) : Global :=
  ops.foldl (applyOp bank) (initGlobal period)

/-- The room's current question index, if the room exists. -/
def currentQAt (g : Global) (chat : Nat) : Option Nat :=
  (alookup g.rooms chat).map Room.current_q

/-- Serial processing of a sequence of answer submissions for one room. -/
def answersRun (bank : List Question) (msgId chat : Nat) : Global → List AnsEvent → Global
  | g, [] => g
  | g, e :: rest => answersRun bank msgId chat (answer bank msgId chat g e).g rest

/-- The winners recorded, across a trace of answer submissions, by steps that
started with the room at question index `k`. -/
def winsAt (bank : List Question) (msgId chat k : Nat) :
    Global → List AnsEvent → List Nat
  | _, [] => []
  | g, e :: rest =>
    let st := answer bank msgId chat g e
    let tail := winsAt bank msgId chat k st.g rest
    match st.winner with
    | some w => if currentQAt g chat = some k then w :: tail else tail
    | none => tail

/-! ## Basic lemmas: association lists, lexicographic order, stable sort -/

theorem alookup_aset {α : Type} (l : List (Nat × α)) (k k' : Nat) (v : α) :
    alookup (aset l k v) k' = if k' = k then some v else alookup l k' := by
  induction l with
  | nil => by_cases h : k' = k <;> simp [aset, alookup, h]
  | cons p rest ih =>
    obtain ⟨a, b⟩ := p
    by_cases hk : k = a
    · subst hk
      by_cases h : k' = k <;> simp [aset, alookup, h]
    · by_cases h : k' = a
      · subst h
        rw [if_neg (fun hh : k' = k => hk hh.symm)]
        simp [aset, alookup, hk]
      · simp [aset, alookup, hk, h, ih]

theorem alookup_aset_self {α : Type} (l : List (Nat × α)) (k : Nat) (v : α) :
    alookup (aset l k v) k = some v := by
  simp [alookup_aset]

theorem alookup_aset_ne {α : Type} (l : List (Nat × α)) (k k' : Nat) (v : α) (h : k' ≠ k) :
    alookup (aset l k v) k' = alookup l k' := by
  simp [alookup_aset, h]

theorem aset_aset {α : Type} (l : List (Nat × α)) (k : Nat) (v w : α) :
    aset (aset l k v) k w = aset l k w := by
  induction l with
  | nil => simp [aset]
  | cons p rest ih =>
    obtain ⟨a, b⟩ := p
    by_cases hk : k = a <;> simp [aset, hk, ih]

theorem mem_sinsert (x y : Nat) (s : List Nat) : y ∈ sinsert x s ↔ y = x ∨ y ∈ s := by
  unfold sinsert
  split
  · next h =>
    constructor
    · exact fun hy => Or.inr hy
    · rintro (rfl | hy)
      · exact h
      · exact hy
  · exact List.mem_cons

theorem self_mem_sinsert (x : Nat) (s : List Nat) : x ∈ sinsert x s :=
  (mem_sinsert x x s).mpr (Or.inl rfl)

theorem sinsert_of_mem {x : Nat} {s : List Nat} (h : x ∈ s) : sinsert x s = s := by
  simp [sinsert, h]

theorem count_sinsert_self (x : Nat) (s : List Nat) (h : x ∉ s) :
    (sinsert x s).count x = 1 := by
  simp [sinsert, h, List.count_eq_zero.mpr h]

theorem lexLe_total : ∀ s t : List Char, (lexLe s t || lexLe t s) = true
  | [], t => by cases t <;> simp [lexLe]
  | c :: cs, [] => by simp [lexLe]
  | c :: cs, d :: ds => by
    by_cases h : c = d
    · subst h
      simpa [lexLe] using lexLe_total cs ds
    · simp only [lexLe, if_neg h, if_neg (fun hh : d = c => h hh.symm), chLe]
      simpa using le_total c d

theorem lexLe_trans : ∀ s t u : List Char,
    lexLe s t = true → lexLe t u = true → lexLe s u = true
  | [], _, _, _, _ => rfl
  | _ :: _, [], _, h1, _ => by simp [lexLe] at h1
  | _ :: _, _ :: _, [], _, h2 => by simp [lexLe] at h2
  | c :: cs, d :: ds, e :: es, h1, h2 => by
    by_cases hcd : c = d
    · subst hcd
      by_cases hce : c = e
      · subst hce
        simp only [lexLe, if_pos rfl] at h1 h2 ⊢
        exact lexLe_trans cs ds es h1 h2
      · simpa [lexLe, hce] using h2
    · by_cases hde : d = e
      · subst hde
        simpa [lexLe, hcd] using h1
      · by_cases hce : c = e
        · subst hce
          simp only [lexLe, if_neg hcd, if_neg hde, chLe, decide_eq_true_eq] at h1 h2
          exact absurd (le_antisymm h1 h2) hcd
        · simp only [lexLe, if_neg hcd, if_neg hde, if_neg hce, chLe,
            decide_eq_true_eq] at h1 h2 ⊢
          exact le_trans h1 h2

theorem strLe_total (s t : String) : (strLe s t || strLe t s) = true :=
  lexLe_total s.data t.data

theorem strLe_trans {s t u : String} (h1 : strLe s t = true) (h2 : strLe t u = true) :
    strLe s u = true :=
  lexLe_trans s.data t.data u.data h1 h2

theorem insertS_perm {α : Type} (le : α → α → Bool) (x : α) (l : List α) :
    (insertS le x l).Perm (x :: l) := by
  induction l with
  | nil => exact List.Perm.refl _
  | cons y ys ih =>
    simp only [insertS]
    split
    · exact (ih.cons y).trans (List.Perm.swap x y ys)
    · exact List.Perm.refl _

theorem sortS_perm {α : Type} (le : α → α → Bool) (l : List α) : (sortS le l).Perm l := by
  induction l with
  | nil => exact List.Perm.refl _
  | cons x xs ih =>
    simp only [sortS]
    exact (insertS_perm le x _).trans (ih.cons x)

theorem insertS_pairwise {α : Type} {le : α → α → Bool}
    (total : ∀ a b, (le a b || le b a) = true)
    (htrans : ∀ a b c, le a b = true → le b c = true → le a c = true)
    (x : α) (l : List α) (h : l.Pairwise (fun a b => le a b = true)) :
    (insertS le x l).Pairwise (fun a b => le a b = true) := by
  induction l with
  | nil => simp [insertS]
  | cons y ys ih =>
    rcases List.pairwise_cons.mp h with ⟨hy, hys⟩
    simp only [insertS]
    split
    · next hcond =>
      simp only [Bool.and_eq_true] at hcond
      obtain ⟨hyx, _⟩ := hcond
      refine List.pairwise_cons.mpr ⟨?_, ih hys⟩
      intro z hz
      rcases List.mem_cons.mp ((insertS_perm le x ys).mem_iff.mp hz) with rfl | hzys
      · exact hyx
      · exact hy z hzys
    · next hcond =>
      have hxy : le x y = true := by
        by_cases hxy : le x y = true
        · exact hxy
        · have hyx : le y x = true := by
            have htot := total x y
            simp only [Bool.or_eq_true] at htot
            rcases htot with h' | h'
            · exact absurd h' hxy
            · exact h'
          have hfalse : le x y = false := by
            revert hxy
            cases le x y <;> simp
          exact absurd (by simp [hyx, hfalse]) hcond
      refine List.pairwise_cons.mpr ⟨?_, h⟩
      intro z hz
      rcases List.mem_cons.mp hz with rfl | hzys
      · exact hxy
      · exact htrans x y z hxy (hy z hzys)

theorem sortS_pairwise {α : Type} {le : α → α → Bool}
    (total : ∀ a b, (le a b || le b a) = true)
    (htrans : ∀ a b c, le a b = true → le b c = true → le a c = true)
    (l : List α) : (sortS le l).Pairwise (fun a b => le a b = true) := by
  induction l with
  | nil => simp [sortS]
  | cons x xs ih =>
    simp only [sortS]
    exact insertS_pairwise total htrans x _ ih

/-! ## Ledger lemmas -/

theorem agetD_eq {α : Type} (l : List (Nat × α)) (k : Nat) (d : α) :
    agetD l k d = (alookup l k).getD d := rfl

theorem ensure_group_period (s : Scores) (chat : Nat) :
    (ensure_group s chat).period = s.period := by
  unfold ensure_group
  split <;> rfl

theorem alookup_ensure_group (s : Scores) (chat c' : Nat) :
    alookup (ensure_group s chat).groups c' =
      if c' = chat then some (agetD s.groups chat ⟨[], []⟩) else alookup s.groups c' := by
  unfold ensure_group
  cases hchat : alookup s.groups chat with
  | some grp =>
    simp only [hchat, Option.isSome_some, if_true]
    by_cases h : c' = chat
    · subst h
      simp [agetD_eq, hchat]
    · simp [h]
  | none =>
    simp only [hchat, Option.isSome_none, Bool.false_eq_true, if_false]
    simp [alookup_aset, agetD_eq, hchat]

theorem pointsOf_eq (s : Scores) (chat uid : Nat) :
    pointsOf s chat uid = agetD (agetD s.groups chat ⟨[], []⟩).users uid 0 := by
  unfold pointsOf
  cases h : alookup s.groups chat <;> simp [agetD_eq, h, alookup]

theorem nameOf_eq (s : Scores) (chat uid : Nat) :
    nameOf s chat uid = alookup (agetD s.groups chat ⟨[], []⟩).names uid := by
  unfold nameOf
  cases h : alookup s.groups chat <;> simp [agetD_eq, h, alookup]

theorem add_score_groups (s : Scores) (chat uid : Nat) (d : String) (dl : Int) (c' : Nat) :
    alookup (add_score s chat uid d dl).groups c' =
      if c' = chat then
        some ⟨aset (agetD s.groups chat ⟨[], []⟩).users uid
                (agetD (agetD s.groups chat ⟨[], []⟩).users uid 0 + dl),
              aset (agetD s.groups chat ⟨[], []⟩).names uid d⟩
      else alookup s.groups c' := by
  have hg : agetD (ensure_group s chat).groups chat ⟨[], []⟩ = agetD s.groups chat ⟨[], []⟩ := by
    rw [agetD_eq, alookup_ensure_group, if_pos rfl]
    rfl
  unfold add_score add_score_run
  simp only []
  rw [alookup_aset, hg]
  by_cases h : c' = chat
  · rw [if_pos h, if_pos h]
  · rw [if_neg h, if_neg h, alookup_ensure_group, if_neg h]

theorem add_score_period (s : Scores) (chat uid : Nat) (d : String) (dl : Int) :
    (add_score s chat uid d dl).period = s.period := by
  unfold add_score add_score_run
  simp only []
  exact ensure_group_period s chat

theorem pointsOf_add_score_self (s : Scores) (c u : Nat) (d : String) (dl : Int) :
    pointsOf (add_score s c u d dl) c u = pointsOf s c u + dl := by
  rw [pointsOf_eq, pointsOf_eq, agetD_eq (k := c), agetD_eq (k := c), add_score_groups,
    if_pos rfl]
  simp [agetD_eq, alookup_aset_self]

theorem pointsOf_add_score_other (s : Scores) (c u c' u' : Nat) (d : String) (dl : Int)
    (h : ¬(c' = c ∧ u' = u)) :
    pointsOf (add_score s c u d dl) c' u' = pointsOf s c' u' := by
  rw [pointsOf_eq, pointsOf_eq, agetD_eq (k := c'), agetD_eq (k := c'), add_score_groups]
  by_cases hc : c' = c
  · subst hc
    rw [if_pos rfl]
    have hu : u' ≠ u := fun hu => h ⟨rfl, hu⟩
    simp [agetD_eq, alookup_aset_ne _ _ _ _ hu]
  · rw [if_neg hc]

theorem nameOf_add_score_self (s : Scores) (c u : Nat) (d : String) (dl : Int) :
    nameOf (add_score s c u d dl) c u = some d := by
  rw [nameOf_eq, agetD_eq, add_score_groups, if_pos rfl]
  simp [alookup_aset_self]

theorem nameOf_add_score_other (s : Scores) (c u c' u' : Nat) (d : String) (dl : Int)
    (h : ¬(c' = c ∧ u' = u)) :
    nameOf (add_score s c u d dl) c' u' = nameOf s c' u' := by
  rw [nameOf_eq, nameOf_eq, agetD_eq (k := c'), agetD_eq (k := c'), add_score_groups]
  by_cases hc : c' = c
  · subst hc
    rw [if_pos rfl]
    have hu : u' ≠ u := fun hu => h ⟨rfl, hu⟩
    simp [agetD_eq, alookup_aset_ne _ _ _ _ hu]
  · rw [if_neg hc]

theorem pointsOf_ensure_group (s : Scores) (c c' u : Nat) :
    pointsOf (ensure_group s c) c' u = pointsOf s c' u := by
  rw [pointsOf_eq, pointsOf_eq, agetD_eq (k := c'), agetD_eq (k := c'), alookup_ensure_group]
  by_cases h : c' = c
  · subst h
    rw [if_pos rfl]
    simp [agetD_eq]
  · rw [if_neg h]

theorem nameOf_ensure_group (s : Scores) (c c' u : Nat) :
    nameOf (ensure_group s c) c' u = nameOf s c' u := by
  rw [nameOf_eq, nameOf_eq, agetD_eq (k := c'), agetD_eq (k := c'), alookup_ensure_group]
  by_cases h : c' = c
  · subst h
    rw [if_pos rfl]
    simp [agetD_eq]
  · rw [if_neg h]

/-! ## The ranking order -/

theorem rankLe_eq_true_iff (names : List (Nat × String)) (a b : Nat × Int) :
    rankLe names a b = true ↔
      b.2 < a.2 ∨ (a.2 = b.2 ∧ strLe (agetD names a.1 "") (agetD names b.1 "") = true) := by
  simp [rankLe, Bool.or_eq_true, Bool.and_eq_true, decide_eq_true_eq]

theorem rankLe_total (names : List (Nat × String)) (a b : Nat × Int) :
    (rankLe names a b || rankLe names b a) = true := by
  simp only [Bool.or_eq_true, rankLe_eq_true_iff]
  rcases lt_trichotomy a.2 b.2 with h | h | h
  · exact Or.inr (Or.inl h)
  · have := strLe_total (agetD names a.1 "") (agetD names b.1 "")
    simp only [Bool.or_eq_true] at this
    rcases this with hs | hs
    · exact Or.inl (Or.inr ⟨h, hs⟩)
    · exact Or.inr (Or.inr ⟨h.symm, hs⟩)
  · exact Or.inl (Or.inl h)

theorem rankLe_trans (names : List (Nat × String)) (a b c : Nat × Int)
    (h1 : rankLe names a b = true) (h2 : rankLe names b c = true) :
    rankLe names a c = true := by
  rw [rankLe_eq_true_iff] at h1 h2 ⊢
  rcases h1 with h1 | ⟨he1, hs1⟩
  · rcases h2 with h2 | ⟨he2, _⟩
    · exact Or.inl (by omega)
    · exact Or.inl (by omega)
  · rcases h2 with h2 | ⟨he2, hs2⟩
    · exact Or.inl (by omega)
    · exact Or.inr ⟨he1.trans he2, strLe_trans hs1 hs2⟩

/-! ## Claims C3, C5, C6, C8, C10 -/

/-- Claim C3: `reset_month_if_needed` replaces the group map with an empty
mapping and sets the stored period to the current UTC month exactly when the
current month string differs from the stored period, changes nothing otherwise,
and is idempotent within a month: an immediately repeated call for the same
month is a no-op on the ledger state. -/
theorem reset_month_spec (y m : Nat) (s : Scores) :
    (s.period ≠ current_period_str y m →
      (reset_month_if_needed y m s).1 = ⟨current_period_str y m, []⟩)
    ∧ (s.period = current_period_str y m → (reset_month_if_needed y m s).1 = s)
    ∧ (reset_month_if_needed y m (reset_month_if_needed y m s).1).1 =
        (reset_month_if_needed y m s).1 := by
  refine ⟨?_, ?_, ?_⟩
  · intro h
    simp [reset_month_if_needed, h]
  · intro h
    simp [reset_month_if_needed, h]
  · by_cases h : s.period = current_period_str y m
    · simp [reset_month_if_needed, h]
    · simp [reset_month_if_needed, h]

/-- Witness for C3 (the spec's scenario E): period `"2024-05"`, current UTC
date in June 2024: all groups are cleared and the period becomes `"2024-06"`. -/
theorem reset_month_spec_witness :
    (reset_month_if_needed 2024 6 ⟨"2024-05", [(1, ⟨[(7, 3)], [(7, "X")]⟩)]⟩).1
      = ⟨"2024-06", []⟩ := by
  have h := (reset_month_spec 2024 6 ⟨"2024-05", [(1, ⟨[(7, 3)], [(7, "X")]⟩)]⟩).1 (by decide)
  exact h.trans (by decide)

/-- A concrete state with one room (chat 1, hosted by user 10), shared by
several witnesses. -/
def gW1 : Global := (host (initGlobal "2024-01") 1 10 ChatKind.group).1

theorem gabung_rooms_lookup (g : Global) (chat uid : Nat) (un : Option String) (fn : String)
    (room : Room) (hroom : alookup g.rooms chat = some room) :
    alookup (gabung g chat uid un fn).1.rooms chat
      = some { room with players := sinsert uid room.players } := by
  simp [gabung, hroom, alookup_aset_self]

theorem gabung_scores (g : Global) (chat uid : Nat) (un : Option String) (fn : String)
    (room : Room) (hroom : alookup g.rooms chat = some room) :
    (gabung g chat uid un fn).1.scores
      = add_score (ensure_group g.scores chat) chat uid (display_name un fn) 0 := by
  simp [gabung, hroom]

/-- Claim C5: `gabung` fails with the no-room notice and changes no state when
no room exists; when a room exists it adds the caller to the player set
idempotently (rejoining leaves the membership unchanged and never duplicates
the entry), records/refreshes the caller's display name in the ledger via a
zero-point `add_score`, and changes no point total. -/
theorem gabung_spec (g : Global) (chat uid : Nat) (un : Option String) (fn : String) :
    (alookup g.rooms chat = none →
      gabung g chat uid un fn = (g, [Out.msg chat "❌ Belum ada room. Host jalankan /host."]))
    ∧ (∀ room, alookup g.rooms chat = some room →
        ∃ room', alookup (gabung g chat uid un fn).1.rooms chat = some room'
          ∧ room'.players = sinsert uid room.players
          ∧ uid ∈ room'.players
          ∧ (∀ room'', alookup (gabung (gabung g chat uid un fn).1 chat uid un fn).1.rooms chat
              = some room'' → room''.players = room'.players)
          ∧ (uid ∉ room.players → room'.players.count uid = 1)
          ∧ nameOf (gabung g chat uid un fn).1.scores chat uid = some (display_name un fn)
          ∧ (∀ c' u', pointsOf (gabung g chat uid un fn).1.scores c' u'
              = pointsOf g.scores c' u')) := by
  constructor
  · intro h
    simp [gabung, h]
  · intro room hroom
    have h1 := gabung_rooms_lookup g chat uid un fn room hroom
    refine ⟨{ room with players := sinsert uid room.players }, h1, rfl,
      self_mem_sinsert uid _, ?_, ?_, ?_, ?_⟩
    · intro room'' h2
      rw [gabung_rooms_lookup _ chat uid un fn _ h1] at h2
      have h3 := Option.some.inj h2
      subst h3
      simp [sinsert_of_mem (self_mem_sinsert uid room.players)]
    · intro hnm
      exact count_sinsert_self uid room.players hnm
    · rw [gabung_scores g chat uid un fn room hroom]
      exact nameOf_add_score_self _ chat uid _ 0
    · intro c' u'
      rw [gabung_scores g chat uid un fn room hroom]
      by_cases hcu : c' = chat ∧ u' = uid
      · obtain ⟨rfl, rfl⟩ := hcu
        rw [pointsOf_add_score_self, pointsOf_ensure_group]
        ring
      · rw [pointsOf_add_score_other _ _ _ _ _ _ _ hcu, pointsOf_ensure_group]

/-- Witness for C5 at a concrete state: user 20 joins the room of chat 1. -/
theorem gabung_spec_witness :
    ∃ room', alookup (gabung gW1 1 20 none "Didi").1.rooms 1 = some room'
      ∧ room'.players = sinsert 20 []
      ∧ 20 ∈ room'.players
      ∧ (∀ room'', alookup (gabung (gabung gW1 1 20 none "Didi").1 1 20 none "Didi").1.rooms 1
          = some room'' → room''.players = room'.players)
      ∧ (20 ∉ ([] : List Nat) → room'.players.count 20 = 1)
      ∧ nameOf (gabung gW1 1 20 none "Didi").1.scores 1 20 = some (display_name none "Didi")
      ∧ (∀ c' u', pointsOf (gabung gW1 1 20 none "Didi").1.scores c' u'
          = pointsOf gW1.scores c' u') :=
  (gabung_spec gW1 1 20 none "Didi").2 ⟨10, [], 0, [], false, none⟩ (by decide)

/-- Claim C6: when the current question index is at or past the end of the
bank, `send_question` announces quiz completion and returns the state
unchanged (no dispatch, no mutation of the room's per-question fields, so the
room stays `Finished`); starting a game with an empty bank immediately
reports completion. -/
theorem send_question_finished_spec (bank : List Question) (msgId : Nat) (g : Global)
    (chat uid : Nat) :
    (∀ room, alookup g.rooms chat = some room → bank.length ≤ room.current_q →
      send_question bank msgId g chat =
        (g, [Out.msg chat "🎉 *Kuis selesai!* Terima kasih sudah bermain."]))
    ∧ (∀ room, bank = [] → alookup g.rooms chat = some room → room.host = uid →
        startgame bank msgId g chat uid =
          (⟨aset g.rooms chat { room with current_q := 0 }, g.scores⟩,
            [Out.msg chat "🎮 Kuis dimulai! Siap-siap adu cepat!",
             Out.msg chat "🎉 *Kuis selesai!* Terima kasih sudah bermain."])) := by
  constructor
  · intro room hroom hlen
    simp [send_question, hroom, hlen]
  · intro room hbank hroom hhost
    subst hbank
    simp [startgame, hroom, hhost, send_question, alookup_aset_self]

/-- Witness for C6: starting a game on an empty question bank in the concrete
one-room state reports completion at once. -/
theorem send_question_finished_spec_witness :
    startgame [] 100 gW1 1 10 =
      (⟨aset gW1.rooms 1 ⟨10, [], 0, [], false, none⟩, gW1.scores⟩,
        [Out.msg 1 "🎮 Kuis dimulai! Siap-siap adu cepat!",
         Out.msg 1 "🎉 *Kuis selesai!* Terima kasih sudah bermain."]) :=
  (send_question_finished_spec [] 100 gW1 1 10).2 ⟨10, [], 0, [], false, none⟩ rfl
    (by decide) rfl

/-- Claim C8: when the persistence write fails with an I/O error during
`add_score`, the error is logged and not propagated (the run is a total
value), exactly one write is attempted (no retry), and the in-memory ledger
state is updated exactly as if the write had succeeded: the point total is
increased by `delta` and the display name refreshed. -/
theorem add_score_io_spec (s : Scores) (chat uid : Nat) (d : String) (dl : Int)
    (fsWrite : Except String Unit) :
    (add_score_run s chat uid d dl fsWrite).state = add_score s chat uid d dl
    ∧ (add_score_run s chat uid d dl fsWrite).writeAttempts = 1
    ∧ (∀ err, fsWrite = Except.error err →
        (add_score_run s chat uid d dl fsWrite).logs
          = ["❌ Gagal simpan scores.json: " ++ err])
    ∧ (fsWrite = Except.ok () → (add_score_run s chat uid d dl fsWrite).logs = [])
    ∧ pointsOf (add_score_run s chat uid d dl fsWrite).state chat uid
        = pointsOf s chat uid + dl
    ∧ nameOf (add_score_run s chat uid d dl fsWrite).state chat uid = some d := by
  refine ⟨rfl, rfl, ?_, ?_, ?_, ?_⟩
  · rintro err rfl
    rfl
  · rintro rfl
    rfl
  · exact pointsOf_add_score_self s chat uid d dl
  · exact nameOf_add_score_self s chat uid d dl

/-- Witness for C8: a failing write on a concrete ledger is logged while the
in-memory point total still advances. -/
theorem add_score_io_spec_witness :
    (add_score_run ⟨"2024-01", []⟩ 1 20 "Didi" 1 (Except.error "disk full")).logs
        = ["❌ Gagal simpan scores.json: " ++ "disk full"]
    ∧ pointsOf (add_score_run ⟨"2024-01", []⟩ 1 20 "Didi" 1 (Except.error "disk full")).state 1 20
        = pointsOf (⟨"2024-01", []⟩ : Scores) 1 20 + 1 := by
  obtain ⟨-, -, hlog, -, hpts, -⟩ :=
    add_score_io_spec ⟨"2024-01", []⟩ 1 20 "Didi" 1 (Except.error "disk full")
  exact ⟨hlog "disk full" rfl, hpts⟩

/-- Claim C10: the leaderboard query (`juara`) changes no point total and no
recorded display name (for any chat and user, including a chat with no prior
ledger entries), leaves the rooms untouched, and never attempts a persistence
write. -/
theorem juara_spec (g : Global) (chat : Nat) :
    (∀ c' u', pointsOf (juara g chat).1.scores c' u' = pointsOf g.scores c' u')
    ∧ (∀ c' u', nameOf (juara g chat).1.scores c' u' = nameOf g.scores c' u')
    ∧ Out.save ∉ (juara g chat).2
    ∧ (juara g chat).1.rooms = g.rooms := by
  refine ⟨?_, ?_, ?_, rfl⟩
  · intro c' u'
    exact pointsOf_ensure_group g.scores chat c' u'
  · intro c' u'
    exact nameOf_ensure_group g.scores chat c' u'
  · simp [juara]

/-! ## Claim C4: the top-10 ranking -/

/-- The ordering stated by the spec for C4: strictly descending points, ties
broken by the ascending *rendered* display name (the name string the
leaderboard actually displays, `names.get(uid, "Player {uid}")`). -/
def claimedRankOrder (names : List (Nat × String)) (a b : Nat × Int) : Prop :=
  b.2 < a.2 ∨ (a.2 = b.2 ∧ strLe (renderName names a.1) (renderName names b.1) = true)

instance (names : List (Nat × String)) (a b : Nat × Int) :
    Decidable (claimedRankOrder names a b) :=
  inferInstanceAs (Decidable (b.2 < a.2 ∨ (a.2 = b.2
    ∧ strLe (renderName names a.1) (renderName names b.1) = true)))

def c4scores : Scores := ⟨"2024-01", [(1, ⟨[(1, 5), (2, 5)], [(2, "Aaa")]⟩)]⟩

/-- Counterexample to C4 as stated: with two tied players where one has no
stored name, the code sorts by the stored-name default `""`, while it renders
the missing name as `"Player 1"`; the produced order `[(1,5), (2,5)]` violates
the claimed rendered-name tie-break (`"Player 1" > "Aaa"`). -/
theorem top10_claimed_order_counterexample :
    top10_ranking c4scores 1 = [(1, 5), (2, 5)]
    ∧ ¬ (top10_ranking c4scores 1).Pairwise (claimedRankOrder [(2, "Aaa")]) := by
  constructor
  · decide
  · decide

/-- Claim C4 (amended): the ranking is the first ≤ 10 entries of a sorted
permutation of the room's score entries, ordered by strictly descending
points with ties broken by the ascending *stored* display name, a missing
stored name sorting as the empty string (the rendered `"Player {uid}"`
fallback is used only for display, not for ordering); a chat with no recorded
score entries gets the explicit no-scores indicator, not an error. -/
theorem top10_spec (s : Scores) (chat : Nat) :
    (alookup s.groups chat = none →
      top10_text s chat = "📊 Belum ada skor untuk bulan ini.")
    ∧ (∀ grp, alookup s.groups chat = some grp → grp.users = [] →
        top10_text s chat = "📊 Belum ada skor untuk bulan ini.")
    ∧ (top10_ranking s chat).length ≤ 10
    ∧ (∀ grp, alookup s.groups chat = some grp →
        ∃ full, grp.users.Perm full
          ∧ full.Pairwise (fun a b =>
              b.2 < a.2 ∨ (a.2 = b.2
                ∧ strLe (agetD grp.names a.1 "") (agetD grp.names b.1 "") = true))
          ∧ top10_ranking s chat = full.take 10) := by
  refine ⟨?_, ?_, ?_, ?_⟩
  · intro h
    simp [top10_text, h]
  · intro grp h hu
    simp [top10_text, h, hu]
  · unfold top10_ranking
    cases h : alookup s.groups chat with
    | none => simp
    | some grp =>
      simp [List.length_take_le 10 (sortS (rankLe grp.names) grp.users)]
  · intro grp h
    refine ⟨sortS (rankLe grp.names) grp.users, (sortS_perm _ _).symm, ?_, ?_⟩
    · exact (sortS_pairwise (rankLe_total grp.names) (rankLe_trans grp.names)
        grp.users).imp (fun hab => (rankLe_eq_true_iff grp.names _ _).mp hab)
    · simp [top10_ranking, h]

/-- Witness for the amended C4 at the concrete tied-players ledger. -/
theorem top10_spec_witness :
    ∃ full, ([((1 : Nat), (5 : Int)), (2, 5)]).Perm full
      ∧ full.Pairwise (fun a b =>
          b.2 < a.2 ∨ (a.2 = b.2
            ∧ strLe (agetD [(2, "Aaa")] a.1 "") (agetD [(2, "Aaa")] b.1 "") = true))
      ∧ top10_ranking c4scores 1 = full.take 10 :=
  (top10_spec c4scores 1).2.2.2 ⟨[(1, 5), (2, 5)], [(2, "Aaa")]⟩ (by decide)

/-! ## Claim C7: the question-bank loader -/

theorem idx_map_lt (s : List Char) (i : Nat) (h : idx_map s = some i) : i < 4 := by
  unfold idx_map at h
  split at h
  · cases h; omega
  · split at h
    · cases h; omega
    · split at h
      · cases h; omega
      · split at h
        · cases h; omega
        · cases h

theorem parseBlock_shape (b : List Char) (q : Question) (h : parseBlock b = some q) :
    q.options.length = 4 ∧ q.answer < 4 := by
  unfold parseBlock at h
  by_cases hl : (cleanLines b).length < 6
  · simp [hl] at h
  · rw [if_neg hl] at h
    cases hi : idx_map (cleanBenar (findBenarRaw ((cleanLines b).drop 5))) with
    | none => rw [hi] at h; cases h
    | some i =>
      rw [hi] at h
      cases h
      constructor
      · simp [List.length_take, List.length_drop]
        omega
      · exact idx_map_lt _ i hi

/-- The loader's loop keeps exactly the blocks that parse, in order:
a malformed block contributes nothing and loading continues. -/
theorem loadLoop_questions (bs : List (List Char)) (n : Nat) :
    (loadLoop bs n).1 = bs.filterMap parseBlock := by
  induction bs generalizing n with
  | nil => rfl
  | cons b rest ih =>
    simp only [loadLoop, List.filterMap_cons]
    by_cases he : (cleanLines b).isEmpty
    · have hp : parseBlock b = none := by
        have hlen : (cleanLines b).length < 6 := by
          rw [List.isEmpty_iff] at he
          simp [he]
        unfold parseBlock
        simp [hlen]
      simp [he, hp, ih]
    · by_cases hl : (cleanLines b).length < 6
      · have hp : parseBlock b = none := by
          unfold parseBlock
          simp [hl]
        simp [he, hl, hp, ih]
      · cases hi : idx_map (cleanBenar (findBenarRaw ((cleanLines b).drop 5))) with
        | none =>
          have hp : parseBlock b = none := by
            unfold parseBlock
            simp [hl, hi]
          simp [he, hl, hi, hp, ih]
        | some i =>
          have hp : parseBlock b
              = some ⟨String.mk ((cleanLines b).headD []),
                  (((cleanLines b).drop 1).take 4).map String.mk, i⟩ := by
            unfold parseBlock
            simp [hl, hi]
          simp [he, hl, hi, hp, ih]

/-- A nonempty block that fails to parse (too few lines or unrecognized
`BENAR=` tag). -/
def blockBad (b : List Char) : Bool :=
  !(cleanLines b).isEmpty && (parseBlock b).isNone

/-- Each skipped nonempty block produces exactly one warning. -/
theorem loadLoop_warnings_count (bs : List (List Char)) (n : Nat) :
    (loadLoop bs n).2.length = (bs.filter blockBad).length := by
  induction bs generalizing n with
  | nil => rfl
  | cons b rest ih =>
    simp only [loadLoop, List.filter_cons]
    by_cases he : (cleanLines b).isEmpty
    · have hb : blockBad b = false := by simp [blockBad, he]
      simp [he, hb, ih]
    · by_cases hl : (cleanLines b).length < 6
      · have hp : parseBlock b = none := by
          unfold parseBlock
          simp [hl]
        have hb : blockBad b = true := by simp [blockBad, he, hp]
        simp [he, hl, hb, ih]
      · cases hi : idx_map (cleanBenar (findBenarRaw ((cleanLines b).drop 5))) with
        | none =>
          have hp : parseBlock b = none := by
            unfold parseBlock
            simp [hl, hi]
          have hb : blockBad b = true := by simp [blockBad, he, hp]
          simp [he, hl, hi, hb, ih]
        | some i =>
          have hp : parseBlock b
              = some ⟨String.mk ((cleanLines b).headD []),
                  (((cleanLines b).drop 1).take 4).map String.mk, i⟩ := by
            unfold parseBlock
            simp [hl, hi]
          have hb : blockBad b = false := by simp [blockBad, hp]
          simp [he, hl, hi, hb, ih]

/-- Counterexample to C7 as stated: the loader happily accepts a record whose
four option strings are all equal, so loaded questions need not have pairwise
distinct options. -/
theorem load_questions_distinct_counterexample :
    load_questions_txt "Q1\nX\nX\nX\nX\nBENAR=A" = [⟨"Q1", ["X", "X", "X", "X"], 0⟩]
    ∧ ¬ (∀ q ∈ load_questions_txt "Q1\nX\nX\nX\nX\nBENAR=A",
          q.options.Pairwise (fun a b => a ≠ b)) := by
  constructor
  · decide
  · decide

/-- Claim C7 (amended): every loaded question has exactly 4 option strings
(not necessarily distinct) and a correct index in `0..3`; a malformed record
(too few lines or an unrecognized `BENAR=` tag) is skipped with exactly one
warning while the remaining records are still loaded (the result is the
in-order `filterMap` of per-block parsing). -/
theorem load_questions_spec (content : String) :
    (∀ q ∈ load_questions_txt content, q.options.length = 4 ∧ q.answer < 4)
    ∧ load_questions_txt content
        = (splitDashes (trimL content.data)).filterMap parseBlock
    ∧ (load_questions_warnings content).length
        = ((splitDashes (trimL content.data)).filter blockBad).length := by
  refine ⟨?_, loadLoop_questions _ 0, loadLoop_warnings_count _ 0⟩
  intro q hq
  rw [load_questions_txt, loadLoop_questions] at hq
  obtain ⟨b, -, hb⟩ := List.mem_filterMap.mp hq
  exact parseBlock_shape b q hb

/-- Witness for the amended C7 on a concrete two-block file with one
malformed block. -/
theorem load_questions_spec_witness :
    ((⟨"Siapa?", ["A1", "B1", "C1", "D1"], 1⟩ : Question).options.length = 4
      ∧ (⟨"Siapa?", ["A1", "B1", "C1", "D1"], 1⟩ : Question).answer < 4)
    ∧ (load_questions_warnings "Siapa?\nA1\nB1\nC1\nD1\nBENAR=B\n---\nshort").length = 1 := by
  constructor
  · exact (load_questions_spec "Siapa?\nA1\nB1\nC1\nD1\nBENAR=B\n---\nshort").1
      ⟨"Siapa?", ["A1", "B1", "C1", "D1"], 1⟩ (by decide)
  · rw [(load_questions_spec "Siapa?\nA1\nB1\nC1\nD1\nBENAR=B\n---\nshort").2.2]
    decide

/-! ## The answer handler: step characterization -/

/-- The four early-exit guards of `answer` all pass for `room`: the room
exists, the submitter has joined, the question is unsolved, and the submitter
has not yet answered it. -/
def guardsOk (g : Global) (chat : Nat) (e : AnsEvent) (room : Room) : Prop :=
  alookup g.rooms chat = some room ∧ e.user ∈ room.players ∧ room.solved = false
    ∧ e.user ∉ room.answered

instance (g : Global) (chat : Nat) (e : AnsEvent) (room : Room) :
    Decidable (guardsOk g chat e room) :=
  inferInstanceAs (Decidable (alookup g.rooms chat = some room ∧ e.user ∈ room.players
    ∧ room.solved = false ∧ e.user ∉ room.answered))

/-- The room state after a winning answer: the index advances; if a next
question exists the per-question fields are reset for it, otherwise the
completion branch leaves the just-solved state in place. -/
def roomAfterWin (bank : List Question) (msgId : Nat) (room : Room) (u : Nat) : Room :=
  if bank.length ≤ room.current_q + 1 then
    { room with
        answered := sinsert u room.answered
        solved := true
        current_q := room.current_q + 1 }
  else
    { room with
        answered := []
        solved := false
        current_q := room.current_q + 1
        active_msg_id := some msgId }

/-- Complete case analysis of one `answer` step: an early exit changes
nothing; a guarded non-winning step (index out of bounds, or a wrong answer)
records the submitter into `answered` and changes nothing else; a winning
step records the winner, awards the point, and advances the room. -/
theorem answer_spec (bank : List Question) (msgId chat : Nat) (g : Global) (e : AnsEvent) :
    ((answer bank msgId chat g e).g = g
      ∧ (answer bank msgId chat g e).winner = none
      ∧ (answer bank msgId chat g e).crashed = false
      ∧ (alookup g.rooms chat = none
        ∨ ∃ room, alookup g.rooms chat = some room
            ∧ (e.user ∉ room.players ∨ room.solved = true ∨ e.user ∈ room.answered)))
    ∨ (∃ room, guardsOk g chat e room
        ∧ (answer bank msgId chat g e).g
            = ⟨aset g.rooms chat { room with answered := sinsert e.user room.answered },
                g.scores⟩
        ∧ (answer bank msgId chat g e).winner = none
        ∧ ((answer bank msgId chat g e).crashed = true
            ↔ bank.get? room.current_q = none)
        ∧ (bank.get? room.current_q = none
            ∨ ∃ q, bank.get? room.current_q = some q ∧ e.selected ≠ q.answer))
    ∨ (∃ room q, guardsOk g chat e room
        ∧ bank.get? room.current_q = some q
        ∧ e.selected = q.answer
        ∧ (answer bank msgId chat g e).winner = some e.user
        ∧ (answer bank msgId chat g e).crashed = false
        ∧ (answer bank msgId chat g e).g
            = ⟨aset g.rooms chat (roomAfterWin bank msgId room e.user),
                add_score (ensure_group g.scores chat) chat e.user
                  (display_name e.username e.firstName) 1⟩) := by
  cases hroom : alookup g.rooms chat with
  | none =>
    refine Or.inl ?_
    simp [answer, hroom]
  | some room =>
    by_cases hp : e.user ∈ room.players
    · by_cases hs : room.solved = true
      · refine Or.inl ?_
        simp [answer, hroom, if_neg (not_not_intro hp), if_pos hs, hs, hp]
      · by_cases hans : e.user ∈ room.answered
        · refine Or.inl ?_
          simp [answer, hroom, if_neg (not_not_intro hp), if_neg hs, if_pos hans, hans, hp]
        · have hsf : room.solved = false := by
            revert hs
            cases room.solved <;> simp
          have hgo : guardsOk g chat e room := ⟨hroom, hp, hsf, hans⟩
          cases hq : bank.get? room.current_q with
          | none =>
            refine Or.inr (Or.inl ⟨room, hgo, ?_, ?_, ?_, Or.inl hq⟩)
            · simp only [answer, hroom, if_neg (not_not_intro hp), if_neg hs, if_neg hans, hq]
            · simp only [answer, hroom, if_neg (not_not_intro hp), if_neg hs, if_neg hans, hq]
            · simp only [answer, hroom, if_neg (not_not_intro hp), if_neg hs, if_neg hans, hq]
          | some q =>
            by_cases hsel : e.selected = q.answer
            · refine Or.inr (Or.inr ⟨room, q, hgo, hq, hsel, ?_, ?_, ?_⟩)
              · simp only [answer, hroom, if_neg (not_not_intro hp), if_neg hs, if_neg hans,
                  hq, if_pos hsel]
              · simp only [answer, hroom, if_neg (not_not_intro hp), if_neg hs, if_neg hans,
                  hq, if_pos hsel]
              · by_cases hlen : bank.length ≤ room.current_q + 1
                · simp only [answer, hroom, if_neg (not_not_intro hp), if_neg hs, if_neg hans,
                    hq, if_pos hsel, send_question, alookup_aset_self, aset_aset,
                    roomAfterWin, if_pos hlen]
                · simp only [answer, hroom, if_neg (not_not_intro hp), if_neg hs, if_neg hans,
                    hq, if_pos hsel, send_question, alookup_aset_self, aset_aset,
                    roomAfterWin, if_neg hlen]
            · refine Or.inr (Or.inl ⟨room, hgo, ?_, ?_, ?_, Or.inr ⟨q, hq, hsel⟩⟩)
              · simp only [answer, hroom, if_neg (not_not_intro hp), if_neg hs, if_neg hans,
                  hq, if_neg hsel]
              · simp only [answer, hroom, if_neg (not_not_intro hp), if_neg hs, if_neg hans,
                  hq, if_neg hsel]
              · simp only [answer, hroom, if_neg (not_not_intro hp), if_neg hs, if_neg hans,
                  hq, if_neg hsel]
                simp
    · refine Or.inl ?_
      simp [answer, hroom, if_pos hp, hp]

/-! ## Derived step lemmas -/

theorem currentQAt_eq_some (g : Global) (chat : Nat) (room : Room)
    (h : alookup g.rooms chat = some room) :
    currentQAt g chat = some room.current_q := by
  unfold currentQAt
  rw [h]
  rfl

theorem roomAfterWin_current_q (bank : List Question) (msgId : Nat) (room : Room) (u : Nat) :
    (roomAfterWin bank msgId room u).current_q = room.current_q + 1 := by
  unfold roomAfterWin
  split <;> rfl

theorem answer_winner_none_scores (bank : List Question) (msgId chat : Nat) (g : Global)
    (e : AnsEvent) (h : (answer bank msgId chat g e).winner = none) :
    (answer bank msgId chat g e).g.scores = g.scores := by
  rcases answer_spec bank msgId chat g e with ⟨hg, -, -, -⟩ | ⟨room, -, hg, -, -, -⟩
    | ⟨room, q, -, -, -, hw, -, -⟩
  · rw [hg]
  · rw [hg]
  · rw [hw] at h
    cases h

theorem answer_room_none (bank : List Question) (msgId chat : Nat) (g : Global)
    (e : AnsEvent) (h : alookup g.rooms chat = none) :
    (answer bank msgId chat g e).g = g := by
  rcases answer_spec bank msgId chat g e with ⟨hg, -, -, -⟩ | ⟨room, hgo, -, -, -, -⟩
    | ⟨room, q, hgo, -, -, -, -, -⟩
  · exact hg
  · rw [hgo.1] at h
    cases h
  · rw [hgo.1] at h
    cases h

theorem answer_currentQ_mono (bank : List Question) (msgId chat : Nat) (g : Global)
    (e : AnsEvent) (k : Nat) (h : currentQAt g chat = some k) :
    ∃ k', currentQAt (answer bank msgId chat g e).g chat = some k' ∧ k ≤ k' := by
  rcases answer_spec bank msgId chat g e with ⟨hg, -, -, -⟩ | ⟨room, hgo, hg, -, -, -⟩
    | ⟨room, q, hgo, -, -, -, -, hg⟩
  · exact ⟨k, by rw [hg]; exact h, le_refl k⟩
  · have hk : k = room.current_q := by
      rw [currentQAt_eq_some g chat room hgo.1] at h
      exact (Option.some.inj h).symm
    subst hk
    exact ⟨room.current_q,
      by rw [hg, currentQAt_eq_some _ chat _ (alookup_aset_self _ _ _)], le_refl _⟩
  · have hk : k = room.current_q := by
      rw [currentQAt_eq_some g chat room hgo.1] at h
      exact (Option.some.inj h).symm
    subst hk
    refine ⟨room.current_q + 1, ?_, Nat.le_succ _⟩
    rw [hg, currentQAt_eq_some _ chat _ (alookup_aset_self _ _ _), roomAfterWin_current_q]

theorem answer_winner_some (bank : List Question) (msgId chat : Nat) (g : Global)
    (e : AnsEvent) (w : Nat) (h : (answer bank msgId chat g e).winner = some w) :
    w = e.user ∧ ∃ room, guardsOk g chat e room
      ∧ currentQAt g chat = some room.current_q
      ∧ currentQAt (answer bank msgId chat g e).g chat = some (room.current_q + 1)
      ∧ (answer bank msgId chat g e).g.scores
          = add_score (ensure_group g.scores chat) chat e.user
              (display_name e.username e.firstName) 1 := by
  rcases answer_spec bank msgId chat g e with ⟨-, hw, -, -⟩ | ⟨room, -, -, hw, -, -⟩
    | ⟨room, q, hgo, -, -, hw, -, hg⟩
  · rw [hw] at h
    cases h
  · rw [hw] at h
    cases h
  · rw [hw] at h
    refine ⟨(Option.some.inj h).symm, room, hgo, currentQAt_eq_some g chat room hgo.1, ?_, ?_⟩
    · rw [hg, currentQAt_eq_some _ chat _ (alookup_aset_self _ _ _), roomAfterWin_current_q]
    · rw [hg]

/-! ## Trace lemmas -/

theorem winsAt_nil_of_gt (bank : List Question) (msgId chat k : Nat) :
    ∀ (evs : List AnsEvent) (g : Global),
      (∀ m, currentQAt g chat = some m → k < m) →
      winsAt bank msgId chat k g evs = [] := by
  intro evs
  induction evs with
  | nil =>
    intro g _
    rfl
  | cons e rest ih =>
    intro g h
    simp only [winsAt]
    cases hw : (answer bank msgId chat g e).winner with
    | none =>
      apply ih
      intro m hm
      cases hg : currentQAt g chat with
      | none =>
        have hnone : alookup g.rooms chat = none := by
          unfold currentQAt at hg
          cases hl : alookup g.rooms chat with
          | none => rfl
          | some r =>
            rw [hl] at hg
            cases hg
        rw [answer_room_none bank msgId chat g e hnone, hg] at hm
        cases hm
      | some m0 =>
        have hk := h m0 hg
        obtain ⟨k', hk', hle⟩ := answer_currentQ_mono bank msgId chat g e m0 hg
        rw [hk'] at hm
        have := Option.some.inj hm
        omega
    | some w =>
      obtain ⟨-, room, hgo, hcq, hcq', -⟩ := answer_winner_some bank msgId chat g e w hw
      have hk := h room.current_q hcq
      have hne : ¬(currentQAt g chat = some k) := by
        rw [hcq]
        intro hcontra
        have := Option.some.inj hcontra
        omega
      show (if currentQAt g chat = some k then
          w :: winsAt bank msgId chat k (answer bank msgId chat g e).g rest
        else winsAt bank msgId chat k (answer bank msgId chat g e).g rest) = []
      rw [if_neg hne]
      apply ih
      intro m hm
      rw [hcq'] at hm
      have := Option.some.inj hm
      omega

theorem winsAt_length (bank : List Question) (msgId chat k : Nat) :
    ∀ (evs : List AnsEvent) (g : Global), (winsAt bank msgId chat k g evs).length ≤ 1 := by
  intro evs
  induction evs with
  | nil =>
    intro g
    simp [winsAt]
  | cons e rest ih =>
    intro g
    simp only [winsAt]
    cases hw : (answer bank msgId chat g e).winner with
    | none => exact ih _
    | some w =>
      have hmatch : (match some w with
          | some w' => if currentQAt g chat = some k
              then w' :: winsAt bank msgId chat k (answer bank msgId chat g e).g rest
              else winsAt bank msgId chat k (answer bank msgId chat g e).g rest
          | none => winsAt bank msgId chat k (answer bank msgId chat g e).g rest)
          = (if currentQAt g chat = some k
              then w :: winsAt bank msgId chat k (answer bank msgId chat g e).g rest
              else winsAt bank msgId chat k (answer bank msgId chat g e).g rest) := rfl
      rw [hmatch]
      by_cases hcond : currentQAt g chat = some k
      · rw [if_pos hcond]
        obtain ⟨-, room, hgo, hcq, hcq', -⟩ := answer_winner_some bank msgId chat g e w hw
        have hroomk : room.current_q = k := by
          rw [hcq] at hcond
          exact Option.some.inj hcond
        have htail : winsAt bank msgId chat k (answer bank msgId chat g e).g rest = [] := by
          apply winsAt_nil_of_gt
          intro m hm
          rw [hcq'] at hm
          have := Option.some.inj hm
          omega
        rw [htail]
        simp
      · rw [if_neg hcond]
        exact ih _

theorem answersRun_currentQ_mono (bank : List Question) (msgId chat : Nat) :
    ∀ (evs : List AnsEvent) (g : Global) (k : Nat), currentQAt g chat = some k →
      ∃ k', currentQAt (answersRun bank msgId chat g evs) chat = some k' ∧ k ≤ k' := by
  intro evs
  induction evs with
  | nil =>
    intro g k h
    exact ⟨k, h, le_refl k⟩
  | cons e rest ih =>
    intro g k h
    obtain ⟨k1, h1, hle1⟩ := answer_currentQ_mono bank msgId chat g e k h
    obtain ⟨k2, h2, hle2⟩ := ih _ k1 h1
    exact ⟨k2, h2, le_trans hle1 hle2⟩

/-- While the room stays on the same question, its players, unsolved status
and recorded answerers are preserved across any answer trace. -/
theorem answersRun_preserve (bank : List Question) (msgId chat : Nat) :
    ∀ (evs : List AnsEvent) (g : Global) (room : Room) (u : Nat),
      alookup g.rooms chat = some room → room.solved = false →
      u ∈ room.players → u ∈ room.answered →
      currentQAt (answersRun bank msgId chat g evs) chat = some room.current_q →
      ∃ room', alookup (answersRun bank msgId chat g evs).rooms chat = some room'
        ∧ room'.current_q = room.current_q ∧ room'.solved = false
        ∧ u ∈ room'.players ∧ u ∈ room'.answered := by
  intro evs
  induction evs with
  | nil =>
    intro g room u hroom hsolved hmem hans _
    exact ⟨room, hroom, rfl, hsolved, hmem, hans⟩
  | cons e rest ih =>
    intro g room u hroom hsolved hmem hans hq
    rcases answer_spec bank msgId chat g e with ⟨hg, -, -, -⟩ | ⟨room0, hgo, hg, -, -, -⟩
      | ⟨room0, q, hgo, -, -, hw, -, hg⟩
    · simp only [answersRun] at hq ⊢
      rw [hg] at hq ⊢
      exact ih g room u hroom hsolved hmem hans hq
    · obtain rfl : room0 = room := Option.some.inj (hgo.1.symm.trans hroom)
      simp only [answersRun] at hq ⊢
      rw [hg] at hq ⊢
      exact ih _ { room0 with answered := sinsert e.user room0.answered } u
        (alookup_aset_self _ _ _) hsolved hmem ((mem_sinsert _ _ _).mpr (Or.inr hans)) hq
    · obtain rfl : room0 = room := Option.some.inj (hgo.1.symm.trans hroom)
      simp only [answersRun] at hq
      have hcq' : currentQAt (answer bank msgId chat g e).g chat
          = some (room0.current_q + 1) := by
        rw [hg, currentQAt_eq_some _ chat _ (alookup_aset_self _ _ _), roomAfterWin_current_q]
      obtain ⟨k2, h2, hle2⟩ := answersRun_currentQ_mono bank msgId chat rest
        (answer bank msgId chat g e).g _ hcq'
      rw [h2] at hq
      have := Option.some.inj hq
      omega

theorem not_early_of_guards (g : Global) (chat : Nat) (e : AnsEvent) (room : Room)
    (hgo : guardsOk g chat e room)
    (hre : alookup g.rooms chat = none
      ∨ ∃ room1, alookup g.rooms chat = some room1
          ∧ (e.user ∉ room1.players ∨ room1.solved = true ∨ e.user ∈ room1.answered)) :
    False := by
  obtain ⟨hroom, hmem, hsolved, hans⟩ := hgo
  rcases hre with hnone | ⟨room1, hl1, hbad⟩
  · rw [hroom] at hnone
    cases hnone
  · rw [hroom] at hl1
    obtain rfl : room = room1 := Option.some.inj hl1
    rcases hbad with hb | hb | hb
    · exact hb hmem
    · rw [hsolved] at hb
      cases hb
    · exact hans hb

/-- A repeat submission by a player who already answered the current question
is an exact no-op: same state, no winner, no crash, no output. -/
theorem answer_repeat_noop (bank : List Question) (msgId chat : Nat) (g : Global)
    (e : AnsEvent) (room : Room) (hroom : alookup g.rooms chat = some room)
    (hmem : e.user ∈ room.players) (hsolved : room.solved = false)
    (hans : e.user ∈ room.answered) :
    answer bank msgId chat g e = ⟨g, none, false, []⟩ := by
  simp [answer, hroom, hmem, hsolved, hans]

/-- A guarded step that records no winner only inserts the submitter into
`answered`; the rest of the room and the whole ledger are untouched. -/
theorem answer_recorded_state (bank : List Question) (msgId chat : Nat) (g : Global)
    (e : AnsEvent) (room : Room) (hgo : guardsOk g chat e room)
    (hw : (answer bank msgId chat g e).winner = none) :
    (answer bank msgId chat g e).g
      = ⟨aset g.rooms chat { room with answered := sinsert e.user room.answered },
          g.scores⟩ := by
  rcases answer_spec bank msgId chat g e with ⟨-, -, -, hre⟩ | ⟨room0, hgo0, hg, -, -, -⟩
    | ⟨room0, q, hgo0, -, -, hww, -, -⟩
  · exact absurd hre (fun h => not_early_of_guards g chat e room hgo h)
  · obtain rfl : room0 = room := Option.some.inj (hgo0.1.symm.trans hgo.1)
    exact hg
  · rw [hww] at hw
    cases hw

/-! ## Claims C1 and C2 -/

/-- Claim C1: across any serial trace of answer submissions for a room, at
most one winner is ever recorded per dispatched question index (the `solved`
flag flips at most once per question); a winning step increases exactly the
winner's point total by exactly 1 and no other player's total anywhere; every
non-winning step (wrong answer, repeat, post-solve, missing room, …) leaves
the whole ledger untouched. -/
theorem answer_single_winner_spec (bank : List Question) (msgId chat : Nat) :
    (∀ g evs k, (winsAt bank msgId chat k g evs).length ≤ 1)
    ∧ (∀ g e w, (answer bank msgId chat g e).winner = some w →
        w = e.user
        ∧ pointsOf (answer bank msgId chat g e).g.scores chat w
            = pointsOf g.scores chat w + 1
        ∧ (∀ c' u', ¬(c' = chat ∧ u' = w) →
            pointsOf (answer bank msgId chat g e).g.scores c' u'
              = pointsOf g.scores c' u'))
    ∧ (∀ g e, (answer bank msgId chat g e).winner = none →
        (answer bank msgId chat g e).g.scores = g.scores) := by
  refine ⟨fun g evs k => winsAt_length bank msgId chat k evs g, ?_, ?_⟩
  · intro g e w hw
    obtain ⟨hwe, room, hgo, -, -, hscores⟩ := answer_winner_some bank msgId chat g e w hw
    subst hwe
    refine ⟨rfl, ?_, ?_⟩
    · rw [hscores, pointsOf_add_score_self, pointsOf_ensure_group]
    · intro c' u' hcu
      rw [hscores, pointsOf_add_score_other _ _ _ _ _ _ _ hcu, pointsOf_ensure_group]
  · intro g e hw
    exact answer_winner_none_scores bank msgId chat g e hw

/-- A two-question bank used by the concrete witnesses. -/
def bankW : List Question := [⟨"Q", ["a", "b", "c", "d"], 2⟩, ⟨"R", ["e", "f", "g", "h"], 0⟩]

/-- A reachable started game: host 10, player 20 joined, question 0 live. -/
def gW2 : Global := runOps bankW "2024-01"
  [Op.opHost 1 10 ChatKind.group, Op.opGabung 1 20 none "Didi", Op.opStart 1 10 100]

/-- Witness for C1: player 20 answers question 0 of the concrete game
correctly and their total rises from 0 to 1. -/
theorem answer_single_winner_spec_witness :
    pointsOf (answer bankW 101 1 gW2 ⟨20, 2, none, "Didi"⟩).g.scores 1 20
      = pointsOf gW2.scores 1 20 + 1 :=
  ((answer_single_winner_spec bankW 101 1).2.1 gW2 ⟨20, 2, none, "Didi"⟩ 20 (by decide)).2.1

/-- Claim C2: a player who already answered the room's current question is
ignored on every further submission to it with no state change at all; the
first submission records the player into `answeredThisQuestion` regardless of
correctness (visibly retained whenever no next question is dispatched), and
this one-attempt record persists across any same-question trace. -/
theorem answer_one_attempt_spec (bank : List Question) (msgId chat : Nat) :
    (∀ g e room, alookup g.rooms chat = some room → e.user ∈ room.players →
      room.solved = false → e.user ∈ room.answered →
      answer bank msgId chat g e = ⟨g, none, false, []⟩)
    ∧ (∀ g e room, guardsOk g chat e room →
        (answer bank msgId chat g e).winner = none →
        (answer bank msgId chat g e).g
          = ⟨aset g.rooms chat { room with answered := sinsert e.user room.answered },
              g.scores⟩)
    ∧ (∀ g e room q, guardsOk g chat e room →
        bank.get? room.current_q = some q → e.selected = q.answer →
        bank.length ≤ room.current_q + 1 →
        alookup (answer bank msgId chat g e).g.rooms chat
          = some { room with
              answered := sinsert e.user room.answered
              solved := true
              current_q := room.current_q + 1 })
    ∧ (∀ g e room, guardsOk g chat e room → (answer bank msgId chat g e).winner = none →
        ∀ evs e', e'.user = e.user →
          currentQAt (answersRun bank msgId chat (answer bank msgId chat g e).g evs) chat
            = some room.current_q →
          answer bank msgId chat
              (answersRun bank msgId chat (answer bank msgId chat g e).g evs) e'
            = ⟨answersRun bank msgId chat (answer bank msgId chat g e).g evs,
                none, false, []⟩) := by
  refine ⟨?_, ?_, ?_, ?_⟩
  · intro g e room hroom hmem hsolved hans
    exact answer_repeat_noop bank msgId chat g e room hroom hmem hsolved hans
  · intro g e room hgo hw
    exact answer_recorded_state bank msgId chat g e room hgo hw
  · intro g e room q hgo hq hsel hlen
    rcases answer_spec bank msgId chat g e with ⟨-, -, -, hre⟩ | ⟨room0, hgo0, -, -, -, hnw⟩
      | ⟨room0, q0, hgo0, hq0, -, -, -, hg⟩
    · exact absurd hre (fun h => not_early_of_guards g chat e room hgo h)
    · obtain rfl : room0 = room := Option.some.inj (hgo0.1.symm.trans hgo.1)
      rcases hnw with hn | ⟨q1, hq1, hne⟩
      · rw [hq] at hn
        cases hn
      · rw [hq] at hq1
        obtain rfl : q = q1 := Option.some.inj hq1
        exact absurd hsel hne
    · obtain rfl : room0 = room := Option.some.inj (hgo0.1.symm.trans hgo.1)
      rw [hg]
      show alookup (aset g.rooms chat (roomAfterWin bank msgId room0 e.user)) chat = _
      rw [alookup_aset_self]
      unfold roomAfterWin
      rw [if_pos hlen]
  · intro g e room hgo hw evs e' hue hq
    rw [answer_recorded_state bank msgId chat g e room hgo hw] at hq ⊢
    obtain ⟨room', hlook', hcq', hsolved', hmem', hans'⟩ :=
      answersRun_preserve bank msgId chat evs
        ⟨aset g.rooms chat { room with answered := sinsert e.user room.answered }, g.scores⟩
        { room with answered := sinsert e.user room.answered } e.user
        (alookup_aset_self _ _ _) hgo.2.2.1 hgo.2.1 (self_mem_sinsert _ _) hq
    exact answer_repeat_noop bank msgId chat _ e' room' hlook'
      (by rw [hue]; exact hmem') hsolved' (by rw [hue]; exact hans')

/-- A reachable started game with two players (20 and 30). -/
def gW3 : Global := runOps bankW "2024-01"
  [Op.opHost 1 10 ChatKind.group, Op.opGabung 1 20 none "Didi",
   Op.opGabung 1 30 (some "tri") "Tri", Op.opStart 1 10 100]

/-- Witness for C2: player 30 answers question 0 wrongly, player 20 also
answers wrongly, and player 30's second submission to the same question is an
exact no-op. -/
theorem answer_one_attempt_spec_witness :
    answer bankW 101 1
        (answersRun bankW 101 1 (answer bankW 101 1 gW3 ⟨30, 1, some "tri", "Tri"⟩).g
          [⟨20, 1, none, "Didi"⟩])
        ⟨30, 3, some "tri", "Tri"⟩
      = ⟨answersRun bankW 101 1 (answer bankW 101 1 gW3 ⟨30, 1, some "tri", "Tri"⟩).g
          [⟨20, 1, none, "Didi"⟩], none, false, []⟩ :=
  (answer_one_attempt_spec bankW 101 1).2.2.2 gW3 ⟨30, 1, some "tri", "Tri"⟩
    ⟨10, sinsert 30 (sinsert 20 []), 0, [], false, some 100⟩ (by decide) (by decide)
    [⟨20, 1, none, "Didi"⟩] ⟨30, 3, some "tri", "Tri"⟩ rfl (by decide)

/-! ## Claim C9: bounds safety of the question lookup -/

/-- The reachability invariant: any existing room that is not marked solved
points inside the bank — unless the bank is empty. -/
def roomInv (bank : List Question) (g : Global) : Prop :=
  ∀ chat room, alookup g.rooms chat = some room → room.solved = false →
    room.current_q < bank.length ∨ bank.length = 0

theorem send_question_roomInv (bank : List Question) (msgId : Nat) (g : Global) (chat : Nat)
    (h : roomInv bank g) : roomInv bank (send_question bank msgId g chat).1 := by
  intro c room hc hs
  cases hr : alookup g.rooms chat with
  | none =>
    simp only [send_question, hr] at hc
    exact h c room hc hs
  | some room0 =>
    by_cases hlen : bank.length ≤ room0.current_q
    · simp only [send_question, hr, if_pos hlen] at hc
      exact h c room hc hs
    · simp only [send_question, hr, if_neg hlen] at hc
      rw [alookup_aset] at hc
      by_cases hcc : c = chat
      · rw [if_pos hcc] at hc
        obtain rfl := Option.some.inj hc
        left
        exact Nat.lt_of_not_le hlen
      · rw [if_neg hcc] at hc
        exact h c room hc hs

theorem applyOp_roomInv (bank : List Question) (g : Global) (op : Op)
    (h : roomInv bank g) : roomInv bank (applyOp bank g op) := by
  cases op with
  | opHost chat uid kind =>
    intro c room hc hs
    by_cases hck : kind = ChatKind.group ∨ kind = ChatKind.supergroup
    · simp only [applyOp, host, if_pos hck] at hc
      rw [alookup_aset] at hc
      by_cases hcc : c = chat
      · rw [if_pos hcc] at hc
        obtain rfl := Option.some.inj hc
        rcases Nat.eq_zero_or_pos bank.length with h0 | h0
        · right
          exact h0
        · left
          exact h0
      · rw [if_neg hcc] at hc
        exact h c room hc hs
    · simp only [applyOp, host, if_neg hck] at hc
      exact h c room hc hs
  | opGabung chat uid un fn =>
    intro c room hc hs
    cases hr : alookup g.rooms chat with
    | none =>
      simp only [applyOp, gabung, hr] at hc
      exact h c room hc hs
    | some room0 =>
      simp only [applyOp, gabung, hr] at hc
      rw [alookup_aset] at hc
      by_cases hcc : c = chat
      · rw [if_pos hcc] at hc
        obtain rfl := Option.some.inj hc
        exact h chat room0 hr hs
      · rw [if_neg hcc] at hc
        exact h c room hc hs
  | opStart chat uid msgId =>
    intro c room hc hs
    cases hr : alookup g.rooms chat with
    | none =>
      simp only [applyOp, startgame, hr] at hc
      exact h c room hc hs
    | some room0 =>
      by_cases hh : room0.host ≠ uid
      · simp only [applyOp, startgame, hr, if_pos hh] at hc
        exact h c room hc hs
      · simp only [applyOp, startgame, hr, if_neg hh] at hc
        have hinv1 : roomInv bank
            (⟨aset g.rooms chat { room0 with current_q := 0 }, g.scores⟩ : Global) := by
          intro c1 r1 hc1 hs1
          rw [show (⟨aset g.rooms chat { room0 with current_q := 0 },
              g.scores⟩ : Global).rooms = aset g.rooms chat { room0 with current_q := 0 }
              from rfl, alookup_aset] at hc1
          by_cases hcc1 : c1 = chat
          · rw [if_pos hcc1] at hc1
            obtain rfl := Option.some.inj hc1
            rcases Nat.eq_zero_or_pos bank.length with h0 | h0
            · right
              exact h0
            · left
              exact h0
          · rw [if_neg hcc1] at hc1
            exact h c1 r1 hc1 hs1
        exact send_question_roomInv bank msgId _ chat hinv1 c room hc hs
  | opJuara chat =>
    intro c room hc hs
    exact h c room hc hs
  | opAns chat e msgId =>
    intro c room hc hs
    simp only [applyOp] at hc
    rcases answer_spec bank msgId chat g e with ⟨hg, -, -, -⟩ | ⟨room0, hgo, hg, -, -, -⟩
      | ⟨room0, q, hgo, -, -, -, -, hg⟩
    · rw [hg] at hc
      exact h c room hc hs
    · rw [hg] at hc
      rw [show (⟨aset g.rooms chat { room0 with answered := sinsert e.user room0.answered },
          g.scores⟩ : Global).rooms
          = aset g.rooms chat { room0 with answered := sinsert e.user room0.answered }
          from rfl, alookup_aset] at hc
      by_cases hcc : c = chat
      · rw [if_pos hcc] at hc
        obtain rfl := Option.some.inj hc
        exact h chat room0 hgo.1 hs
      · rw [if_neg hcc] at hc
        exact h c room hc hs
    · rw [hg] at hc
      rw [show (⟨aset g.rooms chat (roomAfterWin bank msgId room0 e.user),
          add_score (ensure_group g.scores chat) chat e.user
            (display_name e.username e.firstName) 1⟩ : Global).rooms
          = aset g.rooms chat (roomAfterWin bank msgId room0 e.user)
          from rfl, alookup_aset] at hc
      by_cases hcc : c = chat
      · rw [if_pos hcc] at hc
        obtain rfl := Option.some.inj hc
        unfold roomAfterWin at hs ⊢
        by_cases hlen : bank.length ≤ room0.current_q + 1
        · rw [if_pos hlen] at hs
          cases hs
        · rw [if_neg hlen]
          left
          show room0.current_q + 1 < bank.length
          exact Nat.lt_of_not_le hlen
      · rw [if_neg hcc] at hc
        exact h c room hc hs
  | opReset y m =>
    intro c room hc hs
    exact h c room hc hs

theorem runOps_roomInv (bank : List Question) (period : String) (ops : List Op) :
    roomInv bank (runOps bank period ops) := by
  have hstep : ∀ (l : List Op) (g : Global), roomInv bank g →
      roomInv bank (l.foldl (applyOp bank) g) := by
    intro l
    induction l with
    | nil => exact fun g hg => hg
    | cons op rest ih => exact fun g hg => ih _ (applyOp_roomInv bank g op hg)
  apply hstep
  intro c room hc _
  simp [initGlobal, alookup] at hc

/-- A reachable state over the empty bank: host 10 created the room of chat 1
and player 20 joined. -/
def gEmpty : Global := runOps [] "2024-01" [Op.opHost 1 10 ChatKind.group,
  Op.opGabung 1 20 none "Didi"]

/-- Counterexample to C9 as stated: with an EMPTY question bank, a reachable
state passes all four answer guards while `current_q` is not below the bank
length, and the unguarded `questions[current_q]` lookup raises `IndexError`. -/
theorem answer_index_counterexample :
    guardsOk gEmpty 1 ⟨20, 0, none, "Didi"⟩ ⟨10, [20], 0, [], false, none⟩
    ∧ ¬((⟨10, [20], 0, [], false, none⟩ : Room).current_q < ([] : List Question).length)
    ∧ (answer [] 101 1 gEmpty ⟨20, 0, none, "Didi"⟩).crashed = true := by
  refine ⟨?_, ?_, ?_⟩ <;> decide

/-- Claim C9 (amended): in every reachable state, whenever the answer handler
passes its guards and the question bank is nonempty, the room's current
question index is strictly below the bank length, so the `questions[...]`
lookup is in bounds and the handler does not raise. -/
theorem answer_index_safe (bank : List Question) (period : String) (ops : List Op)
    (msgId chat : Nat) (e : AnsEvent) (room : Room)
    (hbank : bank ≠ [])
    (hroom : guardsOk (runOps bank period ops) chat e room) :
    room.current_q < bank.length
    ∧ (answer bank msgId chat (runOps bank period ops) e).crashed = false := by
  obtain ⟨hlook, hmem, hsolved, hans⟩ := hroom
  have hinv := runOps_roomInv bank period ops chat room hlook hsolved
  have hlen : room.current_q < bank.length := by
    rcases hinv with h | h
    · exact h
    · exact absurd (List.length_eq_zero.mp h) hbank
  refine ⟨hlen, ?_⟩
  have hq : bank.get? room.current_q ≠ none := by
    rw [Ne, List.get?_eq_none]
    omega
  rcases answer_spec bank msgId chat (runOps bank period ops) e with ⟨-, -, hcr, -⟩
    | ⟨room0, hgo0, -, -, hcr, -⟩ | ⟨room0, q, -, -, -, -, hcr, -⟩
  · exact hcr
  · obtain rfl : room0 = room := Option.some.inj (hgo0.1.symm.trans hlook)
    cases hcc : (answer bank msgId chat (runOps bank period ops) e).crashed
    · rfl
    · exact absurd (hcr.mp hcc) hq
  · exact hcr

/-- Witness for the amended C9: in the started two-question game, player 20's
guarded submission is in bounds and does not crash. -/
theorem answer_index_safe_witness :
    (⟨10, [20], 0, [], false, some 100⟩ : Room).current_q < bankW.length
    ∧ (answer bankW 101 1 (runOps bankW "2024-01"
        [Op.opHost 1 10 ChatKind.group, Op.opGabung 1 20 none "Didi",
         Op.opStart 1 10 100]) ⟨20, 1, none, "Didi"⟩).crashed = false :=
  answer_index_safe bankW "2024-01"
    [Op.opHost 1 10 ChatKind.group, Op.opGabung 1 20 none "Didi", Op.opStart 1 10 100]
    101 1 ⟨20, 1, none, "Didi"⟩ ⟨10, [20], 0, [], false, some 100⟩
    (by decide) (by decide)

end QuizBot
